import Mathlib

/-!
Shallow embedding of the Google AI adapter of langchaingo
(`llms/googleai/googleai.go`): vendor-side (`genai`) and uniform-side
(`llms`) data model, the schema/content/candidate translators, the
stream drain loop, and the request builder, together with theorems
settling the specification claims.

Go's `any` values (as they appear in `map[string]any` parameters and
function-call arguments) are modelled by the inductive `GoVal`; Go maps
are modelled as association lists in a fixed iteration order; Go slices
are lists; `int32` counters are `Int` (no overflow is reachable in the
modelled code paths); fallible Go functions return `Except GAError`;
the one code path that can panic returns a `GoResult`, which has an
explicit `panicked` constructor.  External effects (image download,
JSON unmarshalling of caller-supplied argument strings, and the vendor
transport) are supplied as explicit function-valued parameters (`Env`,
`Oracle`).
-/

/-- Model of a Go `any` value as it can appear inside the
`map[string]any` tool-parameter maps and function-call arguments:
strings, numbers, booleans, `[]string`, `[]interface\x7b\x7d`, and
`map[string]any`.  A Go type assertion `v.(T)` succeeds exactly on the
matching constructor. -/
inductive GoVal where
  | str (s : String)
  | num (n : Int)
  | boolVal (b : Bool)
  | strList (xs : List String)
  | anyList (xs : List GoVal)
  | gomap (m : List (String × GoVal))

/-- Minimal JSON string escaping (backslash and double quote), enough to
model `encoding/json` marshalling of the values reachable here. -/
def jsonEscape (s : String) : String :=
  String.join (s.toList.map fun c =>
    if c = '\\' then "\\\\"
    else if c = '"' then "\\\""
    else String.singleton c)

mutual

/-- Model of `encoding/json.Marshal` on a `GoVal`.  Association lists
are marshalled in list order (the model's fixed iteration order for Go
maps). -/
def jsonMarshalVal : GoVal → String
  | .str s => "\"" ++ jsonEscape s ++ "\""
  | .num n => toString n
  | .boolVal b => cond b "true" "false"
  | .strList xs =>
      "[" ++ String.intercalate "," (xs.map fun s => "\"" ++ jsonEscape s ++ "\"") ++ "]"
  | .anyList xs => "[" ++ String.intercalate "," (jsonMarshalArr xs) ++ "]"
  | .gomap m => "\x7b" ++ String.intercalate "," (jsonMarshalObj m) ++ "\x7d"

/-- Marshal the elements of a JSON array. -/
def jsonMarshalArr : List GoVal → List String
  | [] => []
  | v :: rest => jsonMarshalVal v :: jsonMarshalArr rest

/-- Marshal the key/value entries of a JSON object. -/
def jsonMarshalObj : List (String × GoVal) → List String
  | [] => []
  | (k, v) :: rest =>
      ("\"" ++ jsonEscape k ++ "\":" ++ jsonMarshalVal v) :: jsonMarshalObj rest

end

namespace genai

/-- The vendor schema's closed type enumeration (`genai.Type`). -/
inductive Typ where
  | unspecified
  | string
  | number
  | integer
  | boolean
  | array
  | object
deriving DecidableEq, Repr

/-- The vendor schema type (`genai.Schema`), restricted to the fields
the adapter reads or writes: `Type`, `Description`, `Properties` (a map
that can be nil, hence `Option`), `Items`, `Required`. -/
inductive Schema where
  | mk (ty : Typ) (description : String)
      (properties : Option (List (String × Schema)))
      (items : Option Schema)
      (required : List String)

/-- Field `Type` of a `genai.Schema`. -/
def Schema.ty : Schema → Typ
  | .mk t _ _ _ _ => t

/-- Field `Description` of a `genai.Schema`. -/
def Schema.description : Schema → String
  | .mk _ d _ _ _ => d

/-- Field `Properties` of a `genai.Schema` (`none` models a nil map). -/
def Schema.properties : Schema → Option (List (String × Schema))
  | .mk _ _ p _ _ => p

/-- Field `Items` of a `genai.Schema`. -/
def Schema.items : Schema → Option Schema
  | .mk _ _ _ i _ => i

/-- Field `Required` of a `genai.Schema`. -/
def Schema.required : Schema → List String
  | .mk _ _ _ _ r => r

/-- A `genai.Blob` part (mime type plus raw bytes, bytes as `List Nat`). -/
structure Blob where
  MIMEType : String
  Data : List Nat

/-- A `genai.FunctionCall` part: function name plus `map[string]any`
arguments. -/
structure FunctionCall where
  Name : String
  Args : List (String × GoVal)

/-- A `genai.FunctionResponse` part. -/
structure FunctionResponse where
  Name : String
  Response : List (String × GoVal)

/-- The `genai.Part` interface, as the closed set of part kinds the
adapter produces or consumes. -/
inductive Part where
  | text (s : String)
  | blob (b : Blob)
  | functionCall (fc : FunctionCall)
  | functionResponse (fr : FunctionResponse)

/-- `genai.Content`: a role string plus an ordered list of parts. -/
structure Content where
  Role : String
  Parts : List Part

/-- A `genai.SafetyRating` (category / probability enums as numbers;
the adapter only passes these through). -/
structure SafetyRating where
  Category : Nat
  Probability : Nat
deriving DecidableEq, Repr

/-- `genai.CitationMetadata` (passed through opaquely by the adapter). -/
structure CitationMetadata where
  CitationSources : List String
deriving DecidableEq, Repr

/-- `genai.UsageMetadata` token counts (`int32` in Go). -/
structure UsageMetadata where
  PromptTokenCount : Int
  CandidatesTokenCount : Int
  TotalTokenCount : Int
deriving DecidableEq, Repr

/-- `genai.FinishReason.String()` for the enumeration values. -/
def finishReasonString : Nat → String
  | 0 => "FinishReasonUnspecified"
  | 1 => "FinishReasonStop"
  | 2 => "FinishReasonMaxTokens"
  | 3 => "FinishReasonSafety"
  | 4 => "FinishReasonRecitation"
  | 5 => "FinishReasonOther"
  | n => "FinishReason(" ++ toString n ++ ")"

/-- A `genai.Candidate`, restricted to the fields the adapter reads. -/
structure Candidate where
  Content : Option genai.Content
  FinishReason : Nat
  SafetyRatings : List SafetyRating
  CitationMetadata : Option genai.CitationMetadata
  TokenCount : Int

/-- A `genai.GenerateContentResponse`: candidates plus optional usage
metadata. -/
structure GenerateContentResponse where
  Candidates : List Candidate
  UsageMetadata : Option genai.UsageMetadata

end genai

namespace llms

/-- `llms.ChatMessageType` (role of a uniform message). -/
inductive ChatMessageType where
  | system
  | ai
  | human
  | generic
  | tool
  | function
deriving DecidableEq, Repr

/-- Rendering of a `llms.ChatMessageType` (its underlying Go string). -/
def ChatMessageType.render : ChatMessageType → String
  | .system => "system"
  | .ai => "ai"
  | .human => "human"
  | .generic => "generic"
  | .tool => "tool"
  | .function => "function"

/-- `llms.FunctionCall`: name plus JSON-encoded arguments. -/
structure FunctionCall where
  Name : String
  Arguments : String
deriving DecidableEq, Repr

/-- `llms.ToolCall` (restricted to the `FunctionCall` field, the only
one the adapter reads or writes). -/
structure ToolCall where
  FunctionCall : llms.FunctionCall
deriving DecidableEq, Repr

/-- `llms.ContentPart`: the closed union of uniform content parts. -/
inductive ContentPart where
  | textContent (Text : String)
  | binaryContent (MIMEType : String) (Data : List Nat)
  | imageURLContent (URL : String)
  | toolCall (tc : ToolCall)
  | toolCallResponse (ToolCallID : String) (Name : String) (Content : String)

/-- `llms.MessageContent`: a role plus ordered parts. -/
structure MessageContent where
  Role : ChatMessageType
  Parts : List ContentPart

/-- A value stored in the `GenerationInfo` map (`map[string]any`) of a
choice: citation metadata, safety ratings, or a token count. -/
inductive MetaVal where
  | citations (c : Option genai.CitationMetadata)
  | safety (s : List genai.SafetyRating)
  | int (n : Int)
deriving DecidableEq, Repr

/-- `llms.ContentChoice`, restricted to the fields the adapter sets. -/
structure ContentChoice where
  Content : String
  StopReason : String
  GenerationInfo : List (String × MetaVal)
  ToolCalls : List ToolCall

/-- `llms.ContentResponse`: the ordered choices. -/
structure ContentResponse where
  Choices : List ContentChoice

end llms

namespace googleai

/-- The error values produced by the adapter: the three named sentinel
errors plus `fmt.Errorf`-style message errors. -/
inductive GAError where
  | noContentInResponse
  | unknownPartInResponse
  | invalidMimeType
  | errorf (msg : String)
deriving DecidableEq, Repr

/-- Rendering of an adapter error (Go's `Error()` string), used when an
error is wrapped into a `fmt.Errorf` context. -/
def gaErrorString : GAError → String
  | .noContentInResponse => "no content in generation response"
  | .unknownPartInResponse => "unknown part type in generation response"
  | .invalidMimeType => "invalid mime type on content"
  | .errorf m => m

/-- Constant `CITATIONS`. -/
def CITATIONS : String := "citations"

/-- Constant `SAFETY`. -/
def SAFETY : String := "safety"

/-- Constant `RoleSystem`. -/
def RoleSystem : String := "system"

/-- Constant `RoleModel`. -/
def RoleModel : String := "model"

/-- Constant `RoleUser`. -/
def RoleUser : String := "user"

/-- Result of a Go function call that can also panic: `ok`, error
return, or runtime panic. -/
inductive GoResult (α : Type) where
  | ok (a : α)
  | err (e : GAError)
  | panicked (msg : String)

/-- Lift an `Except` result into a `GoResult` (no panic involved). -/
def exceptToResult {α : Type} : Except GAError α → GoResult α
  | .ok a => .ok a
  | .error e => .err e

/-- The external collaborators used during content translation: the
image-fetch collaborator (`imageutil.DownloadImageData`) and
`encoding/json.Unmarshal` applied to a caller-supplied arguments
string. -/
structure Env where
  downloadImageData : String → Except GAError (String × List Nat)
  jsonUnmarshalMap : String → Except GAError (List (String × GoVal))

end googleai

namespace jsonschema

/-- The structured schema input shape (`jsonschema.Schema` from
invopop/jsonschema), restricted to the fields the adapter reads:
`Type`, `Description`, ordered `Properties`, `Items`, `Required`. -/
inductive Schema where
  | mk (ty : String) (description : String)
      (properties : Option (List (String × Schema)))
      (items : Option Schema)
      (required : List String)

/-- Field `Type` of a structured schema. -/
def Schema.ty : Schema → String
  | .mk t _ _ _ _ => t

/-- Field `Description` of a structured schema. -/
def Schema.description : Schema → String
  | .mk _ d _ _ _ => d

/-- Field `Properties` of a structured schema (`none` models a nil
ordered map). -/
def Schema.properties : Schema → Option (List (String × Schema))
  | .mk _ _ p _ _ => p

/-- Field `Items` of a structured schema. -/
def Schema.items : Schema → Option Schema
  | .mk _ _ _ i _ => i

/-- Field `Required` of a structured schema. -/
def Schema.required : Schema → List String
  | .mk _ _ _ _ r => r

end jsonschema

namespace googleai

/-- `convertJSONSchemaType`: maps a structured-schema type string to
the vendor type enumeration; any unrecognized string maps to
`unspecified`. -/
def convertJSONSchemaType (dt : String) : genai.Typ :=
  if dt = "object" then .object
  else if dt = "string" then .string
  else if dt = "number" then .number
  else if dt = "integer" then .integer
  else if dt = "boolean" then .boolean
  else if dt = "array" then .array
  else .unspecified

/-- `convertToolSchemaType`: maps a generic-map type string to the
vendor type enumeration; any unrecognized string maps to
`unspecified`. -/
def convertToolSchemaType (ty : String) : genai.Typ :=
  if ty = "object" then .object
  else if ty = "string" then .string
  else if ty = "number" then .number
  else if ty = "integer" then .integer
  else if ty = "boolean" then .boolean
  else if ty = "array" then .array
  else .unspecified

mutual

/-- `convertJSONSchemaDefinition`: converts a structured
`jsonschema.Schema` to a `genai.Schema`, recursing into properties and
items. -/
def convertJSONSchemaDefinition : jsonschema.Schema → Except GAError genai.Schema
  | .mk ty desc props items req => do
    let props' ← match props with
      | none => pure none
      | some ps => do
        let cs ← convertJSONSchemaProps ps
        pure (some cs)
    let items' ← match items with
      | none => pure none
      | some it =>
        match convertJSONSchemaDefinition it with
        | .ok s => pure (some s)
        | .error e => throw (.errorf ("items: " ++ gaErrorString e))
    pure (genai.Schema.mk (convertJSONSchemaType ty) desc props' items' req)

/-- The property-map loop of `convertJSONSchemaDefinition`, in the
ordered-map iteration order. -/
def convertJSONSchemaProps :
    List (String × jsonschema.Schema) → Except GAError (List (String × genai.Schema))
  | [] => pure []
  | (k, v) :: rest => do
    let s ← match convertJSONSchemaDefinition v with
      | .ok s => pure s
      | .error e => throw (.errorf ("property [" ++ k ++ "]: " ++ gaErrorString e))
    let restC ← convertJSONSchemaProps rest
    pure ((k, s) :: restC)

end

/-- Go map lookup `m[k]` on the association-list model (first binding
wins; well-formed Go maps have unique keys). -/
def lookupKey (m : List (String × GoVal)) (k : String) : Option GoVal :=
  (m.find? fun p => p.1 = k).map (·.2)

/-- The `required` loop of `convertMapToSchema`: each element of the
untyped sequence must type-assert to a string. -/
def convertRequiredList : List GoVal → Except GAError (List String)
  | [] => pure []
  | r :: rest =>
    match r with
    | .str s => do
      let restS ← convertRequiredList rest
      pure (s :: restS)
    | _ => throw (.errorf "expected string for required")

/-- The property loop of `convertMapToSchema`: each property value must
be a `map[string]any`, from which only `type` and `description` are
read (no recursion into deeper nesting). -/
def convertMapProps :
    List (String × GoVal) → Except GAError (List (String × genai.Schema))
  | [] => pure []
  | (propName, propValue) :: rest =>
    match propValue with
    | .gomap valueMap => do
      let pty ← match lookupKey valueMap "type" with
        | none => pure genai.Typ.unspecified
        | some (.str s) => pure (convertToolSchemaType s)
        | some _ => throw (.errorf "expected string for type")
      let pdesc ← match lookupKey valueMap "description" with
        | none => pure ""
        | some (.str s) => pure s
        | some _ => throw (.errorf "expected string for description")
      let restC ← convertMapProps rest
      pure ((propName, genai.Schema.mk pty pdesc none none []) :: restC)
    | _ => throw (.errorf ("property [" ++ propName ++ "]: expect to find a value map"))

/-- `convertMapToSchema`: converts a generic `map[string]any` parameter
description to a `genai.Schema`.  Reads `type` and `description` (each
must be a string when present), requires a `properties` map, reads one
nesting level of properties, and accepts `required` as `[]string` or as
`[]any` whose elements are all strings. -/
def convertMapToSchema (params : List (String × GoVal)) : Except GAError genai.Schema := do
  let ty ← match lookupKey params "type" with
    | none => pure genai.Typ.unspecified
    | some (.str s) => pure (convertToolSchemaType s)
    | some _ => throw (.errorf "expected string for type")
  let desc ← match lookupKey params "description" with
    | none => pure ""
    | some (.str s) => pure s
    | some _ => throw (.errorf "expected string for description")
  let paramProperties ← match lookupKey params "properties" with
    | some (.gomap pm) => pure pm
    | _ => throw (.errorf "expected to find a map of properties")
  let props ← convertMapProps paramProperties
  let req ← match lookupKey params "required" with
    | none => pure ([] : List String)
    | some (.strList rs) => pure rs
    | some (.anyList ri) => convertRequiredList ri
    | some _ => throw (.errorf "expected string for required")
  pure (genai.Schema.mk ty desc (some props) none req)

/-- `convertParts`: converts uniform content parts to vendor parts.
`ImageURL` parts fetch bytes through the image collaborator
(`genai.ImageData` prefixes the returned format with `image/`);
`ToolCall` parts unmarshal their JSON arguments;
`ToolCallResponse` parts wrap their content under a `response` key. -/
def convertParts (env : Env) : List llms.ContentPart → Except GAError (List genai.Part)
  | [] => pure []
  | part :: rest => do
    let out ← match part with
      | .textContent t => pure (genai.Part.text t)
      | .binaryContent mt dat => pure (genai.Part.blob ⟨mt, dat⟩)
      | .imageURLContent url => do
        let (typ, dat) ← env.downloadImageData url
        pure (genai.Part.blob ⟨"image/" ++ typ, dat⟩)
      | .toolCall tc => do
        let argsMap ← env.jsonUnmarshalMap tc.FunctionCall.Arguments
        pure (genai.Part.functionCall ⟨tc.FunctionCall.Name, argsMap⟩)
      | .toolCallResponse _ name content =>
        pure (genai.Part.functionResponse ⟨name, [("response", GoVal.str content)]⟩)
    let restC ← convertParts env rest
    pure (out :: restC)

/-- `convertContent`: converts a uniform message to vendor content.
The role switch is closed: System→system, AI→model, Human/Generic/Tool→
user; the Function role is rejected. -/
def convertContent (env : Env) (content : llms.MessageContent) :
    Except GAError genai.Content := do
  let parts ← convertParts env content.Parts
  let role ← match content.Role with
    | .system => pure RoleSystem
    | .ai => pure RoleModel
    | .human => pure RoleUser
    | .generic => pure RoleUser
    | .tool => pure RoleUser
    | .function => throw (.errorf ("role " ++ content.Role.render ++ " not supported"))
  pure ⟨role, parts⟩

/-- The per-candidate part loop of `convertCandidates`: text parts are
appended to the string builder, function-call parts (with their
JSON-marshalled arguments) to the tool-call list, and any other part
kind is `ErrUnknownPartInResponse`. -/
def candidateParts :
    List genai.Part → String → List llms.ToolCall →
    Except GAError (String × List llms.ToolCall)
  | [], buf, tcs => pure (buf, tcs)
  | p :: rest, buf, tcs =>
    match p with
    | .text s => candidateParts rest (buf ++ s) tcs
    | .functionCall fc =>
      candidateParts rest buf
        (tcs ++ [⟨⟨fc.Name, jsonMarshalVal (GoVal.gomap fc.Args)⟩⟩])
    | _ => throw .unknownPartInResponse

/-- The `GenerationInfo` metadata map attached to a choice: citation
metadata, safety ratings, and — when usage metadata is present — the
three token counts. -/
def candMetadata (candidate : genai.Candidate) (usage : Option genai.UsageMetadata) :
    List (String × llms.MetaVal) :=
  [(CITATIONS, .citations candidate.CitationMetadata),
   (SAFETY, .safety candidate.SafetyRatings)] ++
  (match usage with
   | none => []
   | some u =>
     [("input_tokens", .int u.PromptTokenCount),
      ("output_tokens", .int u.CandidatesTokenCount),
      ("total_tokens", .int u.TotalTokenCount)])

/-- The candidate loop of `convertCandidates`.  Note that the
`toolCalls` accumulator is threaded across candidates, exactly as the
source declares it outside the loop. -/
def convertCandidatesLoop (usage : Option genai.UsageMetadata) :
    List genai.Candidate → List llms.ToolCall →
    Except GAError (List llms.ContentChoice)
  | [], _ => pure []
  | candidate :: rest, toolCalls => do
    let (buf, toolCalls') ← match candidate.Content with
      | none => pure ("", toolCalls)
      | some c => candidateParts c.Parts "" toolCalls
    let restChoices ← convertCandidatesLoop usage rest toolCalls'
    pure ({ Content := buf,
            StopReason := genai.finishReasonString candidate.FinishReason,
            GenerationInfo := candMetadata candidate usage,
            ToolCalls := toolCalls' } :: restChoices)

/-- `convertCandidates`: converts a sequence of vendor candidates (plus
optional usage metadata) to the uniform response. -/
def convertCandidates (candidates : List genai.Candidate)
    (usage : Option genai.UsageMetadata) : Except GAError llms.ContentResponse := do
  let choices ← convertCandidatesLoop usage candidates []
  pure ⟨choices⟩

/-- The text-streaming inner loop of `convertAndStreamFromIterator`:
invoke the per-token callback on each text part in order; returns
`true` when the callback signalled abort (a non-nil error), which
breaks the drain loop. -/
def streamTextParts (cb : String → Bool) : List genai.Part → Bool
  | [] => false
  | .text s :: rest => if cb s then true else streamTextParts cb rest
  | _ :: rest => streamTextParts cb rest

/-- The initial stream accumulator (`&genai.Candidate\x7bContent:
&genai.Content\x7b\x7d\x7d`). -/
def initialCandidate : genai.Candidate :=
  { Content := some ⟨"", []⟩,
    FinishReason := 0, SafetyRatings := [], CitationMetadata := none,
    TokenCount := 0 }

/-- The drain loop of `convertAndStreamFromIterator` over the modelled
iterator (a list of `Next()` results; the end of the list is
`iterator.Done`).  Exactly one candidate per event is accepted; a
nil-content candidate ends the drain; text parts are streamed to the
callback, whose abort also ends the drain. -/
def drainStream (cb : String → Bool) (acc : genai.Candidate) :
    List (Except GAError genai.GenerateContentResponse) →
    Except GAError genai.Candidate
  | [] => pure acc
  | .error e :: _ => throw (.errorf ("error in stream mode: " ++ gaErrorString e))
  | .ok resp :: rest =>
    match resp.Candidates with
    | [respCandidate] =>
      match respCandidate.Content with
      | none => pure acc
      | some c =>
        let acc' : genai.Candidate :=
          { Content := some ⟨c.Role, (acc.Content.map (·.Parts)).getD [] ++ c.Parts⟩,
            FinishReason := respCandidate.FinishReason,
            SafetyRatings := respCandidate.SafetyRatings,
            CitationMetadata := respCandidate.CitationMetadata,
            TokenCount := acc.TokenCount + respCandidate.TokenCount }
        if streamTextParts cb c.Parts then pure acc'
        else drainStream cb acc' rest
    | cands =>
      throw (.errorf ("expect single candidate in stream mode; got " ++
        toString cands.length))

/-- `convertAndStreamFromIterator`: drains the stream into one
accumulated candidate and merges it with the stream's merged usage
metadata (`iter.MergedResponse().UsageMetadata`, modelled as the
`mergedUsage` parameter). -/
def convertAndStreamFromIterator
    (events : List (Except GAError genai.GenerateContentResponse))
    (cb : String → Bool) (mergedUsage : Option genai.UsageMetadata) :
    Except GAError llms.ContentResponse := do
  let candidate ← drainStream cb initialCandidate events
  convertCandidates [candidate] mergedUsage

/-- The vendor transport, supplied as pure oracles: the batch call, the
batch chat call (receiving the system instruction and history the
adapter configured), and the two streaming calls, each returning the
stream's events plus its merged usage metadata. -/
structure Oracle where
  generateContent :
    List genai.Part → Except GAError genai.GenerateContentResponse
  generateContentStream :
    List genai.Part →
    List (Except GAError genai.GenerateContentResponse) × Option genai.UsageMetadata
  sendMessage :
    Option genai.Content → List genai.Content → List genai.Part →
    Except GAError genai.GenerateContentResponse
  sendMessageStream :
    Option genai.Content → List genai.Content → List genai.Part →
    List (Except GAError genai.GenerateContentResponse) × Option genai.UsageMetadata

/-- `generateFromSingleMessage`: converts the parts of the single
message and either performs one blocking call (zero candidates is
`ErrNoContentInResponse`) or drains the stream. -/
def generateFromSingleMessage (env : Env) (o : Oracle)
    (parts : List llms.ContentPart) (streamingFunc : Option (String → Bool)) :
    Except GAError llms.ContentResponse := do
  let convertedParts ← convertParts env parts
  match streamingFunc with
  | none => do
    let resp ← o.generateContent convertedParts
    if resp.Candidates.length = 0 then throw .noContentInResponse
    else convertCandidates resp.Candidates resp.UsageMetadata
  | some cb =>
    let (events, usage) := o.generateContentStream convertedParts
    convertAndStreamFromIterator events cb usage

/-- The message loop of `generateFromMessages`: converts each message
in order; a System-role message is stored as the standing system
instruction (overwriting any earlier one) and skipped; every other
message is appended to the history. -/
def buildLoop (env : Env) :
    List llms.MessageContent → Option genai.Content → List genai.Content →
    Except GAError (Option genai.Content × List genai.Content)
  | [], sysInstr, history => pure (sysInstr, history)
  | mc :: rest, sysInstr, history => do
    let content ← convertContent env mc
    if mc.Role = .system then buildLoop env rest (some content) history
    else buildLoop env rest sysInstr (history ++ [content])

/-- The request-shape computation of `generateFromMessages` (lines
287–304 of the source): the converted non-System messages form the
history, of which the last entry (`history[n-1]`) is taken as the
actual request; indexing an empty history is a Go runtime panic. -/
def chatRequest (env : Env) (messages : List llms.MessageContent) :
    GoResult (Option genai.Content × List genai.Content × genai.Content) :=
  match buildLoop env messages none [] with
  | .error e => .err e
  | .ok (sysInstr, history) =>
    match history.getLast? with
    | none => .panicked "runtime error: index out of range [-1]"
    | some reqContent => .ok (sysInstr, history.dropLast, reqContent)

/-- `generateFromMessages`: builds the chat request shape, then either
performs one blocking `SendMessage` (zero candidates is
`ErrNoContentInResponse`) or drains the message stream. -/
def generateFromMessages (env : Env) (o : Oracle)
    (messages : List llms.MessageContent)
    (streamingFunc : Option (String → Bool)) : GoResult llms.ContentResponse :=
  match chatRequest env messages with
  | .err e => .err e
  | .panicked m => .panicked m
  | .ok (sysInstr, history, reqContent) =>
    match streamingFunc with
    | none =>
      match o.sendMessage sysInstr history reqContent.Parts with
      | .error e => .err e
      | .ok resp =>
        if resp.Candidates.length = 0 then .err .noContentInResponse
        else exceptToResult (convertCandidates resp.Candidates resp.UsageMetadata)
    | some cb =>
      let (events, usage) := o.sendMessageStream sysInstr history reqContent.Parts
      exceptToResult (convertAndStreamFromIterator events cb usage)

/-- A default environment for concrete witnesses: no network, no JSON
decoding (neither is exercised by text-only inputs). -/
def defaultEnv : Env :=
  { downloadImageData := fun _ => .error (.errorf "no network"),
    jsonUnmarshalMap := fun _ => .error (.errorf "no decoder") }

/-- A transport oracle whose every call returns a response with zero
candidates and no usage metadata. -/
def emptyOracle : Oracle :=
  { generateContent := fun _ => .ok ⟨[], none⟩,
    generateContentStream := fun _ => ([], none),
    sendMessage := fun _ _ _ => .ok ⟨[], none⟩,
    sendMessageStream := fun _ _ _ => ([], none) }

/-! Specification-side functions.  These restate, in direct structural
form, what the spec claims about the adapter; the theorems below relate
them to the translated source functions. -/

/-- Spec: the in-order concatenation of the text parts of a part list. -/
def textConcat : List genai.Part → String
  | [] => ""
  | .text s :: rest => s ++ textConcat rest
  | _ :: rest => textConcat rest

/-- Spec: the in-order tool calls obtained from the function-call parts
of a part list (name plus JSON-encoded arguments). -/
def fcToolCalls : List genai.Part → List llms.ToolCall
  | [] => []
  | .functionCall fc :: rest =>
      ⟨⟨fc.Name, jsonMarshalVal (GoVal.gomap fc.Args)⟩⟩ :: fcToolCalls rest
  | _ :: rest => fcToolCalls rest

/-- A part kind the candidate merger understands (text or function
call). -/
def cleanPart : genai.Part → Bool
  | .text _ => true
  | .functionCall _ => true
  | _ => false

/-- Every part of the candidate is of a kind the merger understands. -/
def candClean (c : genai.Candidate) : Bool :=
  match c.Content with
  | none => true
  | some ct => ct.Parts.all cleanPart

/-- Spec: the concatenated text content of one candidate. -/
def candTextConcat (c : genai.Candidate) : String :=
  match c.Content with
  | none => ""
  | some ct => textConcat ct.Parts

/-- Spec: the tool calls of one candidate. -/
def candToolCalls (c : genai.Candidate) : List llms.ToolCall :=
  match c.Content with
  | none => []
  | some ct => fcToolCalls ct.Parts

/-- Spec (amended): the choices the merger actually produces — one
choice per candidate in input order, each choice's content being that
candidate's own concatenated text, but each choice's tool-call list
being `prior` (the calls of all earlier candidates) extended with that
candidate's own calls. -/
def accumulatedChoices (usage : Option genai.UsageMetadata)
    (prior : List llms.ToolCall) : List genai.Candidate → List llms.ContentChoice
  | [] => []
  | c :: rest =>
    { Content := candTextConcat c,
      StopReason := genai.finishReasonString c.FinishReason,
      GenerationInfo := candMetadata c usage,
      ToolCalls := prior ++ candToolCalls c } ::
    accumulatedChoices usage (prior ++ candToolCalls c) rest

/-- Spec: in-order concatenation of a list of strings. -/
def concatAll : List String → String
  | [] => ""
  | s :: rest => s ++ concatAll rest

/-- Spec: a well-formed single-candidate stream event carrying exactly
one text part. -/
def textEvent (s : String) : Except GAError genai.GenerateContentResponse :=
  .ok ⟨[{ Content := some ⟨"model", [.text s]⟩, FinishReason := 0,
          SafetyRatings := [], CitationMetadata := none, TokenCount := 0 }], none⟩

/-- Spec: the conversion of the last System-role message of the zipped
(message, converted content) list, if any — the standing system
instruction. -/
def systemInstructionOf :
    List (llms.MessageContent × genai.Content) → Option genai.Content
  | [] => none
  | (m, c) :: rest =>
    match systemInstructionOf rest with
    | some s => some s
    | none => if m.Role = .system then some c else none

/-- Spec: the conversions of the non-System messages, in order — the
history list before the last entry is split off as the request. -/
def historyOf :
    List (llms.MessageContent × genai.Content) → List genai.Content
  | [] => []
  | (m, c) :: rest =>
    if m.Role = .system then historyOf rest else c :: historyOf rest

/-- A flat (one-nesting-level) property list: name, type string,
description, rendered in the structured input shape. -/
def flatProperties (ps : List (String × String × String)) :
    List (String × jsonschema.Schema) :=
  ps.map fun p => (p.1, .mk p.2.1 p.2.2 none none [])

/-- The same flat property list rendered in the generic-map input
shape. -/
def flatPropertiesMap (ps : List (String × String × String)) :
    List (String × GoVal) :=
  ps.map fun p =>
    (p.1, GoVal.gomap [("type", .str p.2.1), ("description", .str p.2.2)])

/-! Reduction lemmas for the `Except` monad operations, used to unfold
the translated do-notation. -/

/-- `pure` on `Except` is `ok`. -/
theorem except_pure_eq_ok {ε α : Type} (a : α) : (pure a : Except ε α) = Except.ok a := rfl

/-- Bind on an `ok` value applies the continuation. -/
theorem except_ok_bind {ε α β : Type} (a : α) (f : α → Except ε β) :
    (Except.ok a >>= f : Except ε β) = f a := rfl

/-- Bind on an `error` value short-circuits. -/
theorem except_error_bind {ε α β : Type} (e : ε) (f : α → Except ε β) :
    (Except.error e >>= f : Except ε β) = Except.error e := rfl

/-- Map on an `ok` value applies the function. -/
theorem except_ok_map {ε α β : Type} (a : α) (f : α → β) :
    (f <$> (Except.ok a : Except ε α) : Except ε β) = Except.ok (f a) := rfl

/-- Map on an `error` value short-circuits. -/
theorem except_error_map {ε α β : Type} (e : ε) (f : α → β) :
    (f <$> (Except.error e : Except ε α) : Except ε β) = Except.error e := rfl

/-- `throw` on `Except` is `error`. -/
theorem except_throw_eq_error {ε α : Type} (e : ε) :
    (throw e : Except ε α) = Except.error e := rfl

/-! Helper lemmas about the candidate merger. -/

/-- On parts the merger understands, the per-candidate part loop
returns the accumulated text and the accumulated tool calls. -/
theorem candidateParts_spec (parts : List genai.Part)
    (h : parts.all cleanPart = true) (buf : String) (tcs : List llms.ToolCall) :
    candidateParts parts buf tcs = .ok (buf ++ textConcat parts, tcs ++ fcToolCalls parts) := by
  induction parts generalizing buf tcs with
  | nil => simp [candidateParts, textConcat, fcToolCalls, except_pure_eq_ok]
  | cons p rest ih =>
    cases p with
    | text s =>
      simp only [List.all_cons, cleanPart, Bool.true_and] at h
      simp only [candidateParts]
      rw [ih h]
      simp [textConcat, fcToolCalls, String.append_assoc]
    | functionCall fc =>
      simp only [List.all_cons, cleanPart, Bool.true_and] at h
      simp only [candidateParts]
      rw [ih h]
      simp [textConcat, fcToolCalls]
    | blob b => simp [List.all_cons, cleanPart] at h
    | functionResponse fr => simp [List.all_cons, cleanPart] at h

/-- A part the merger does not understand makes the per-candidate part
loop fail with `ErrUnknownPartInResponse`. -/
theorem candidateParts_err (parts : List genai.Part)
    (h : parts.all cleanPart = false) (buf : String) (tcs : List llms.ToolCall) :
    candidateParts parts buf tcs = .error .unknownPartInResponse := by
  induction parts generalizing buf tcs with
  | nil => simp at h
  | cons p rest ih =>
    cases p with
    | text s =>
      simp only [List.all_cons, cleanPart, Bool.true_and] at h
      simp only [candidateParts]
      exact ih h _ _
    | functionCall fc =>
      simp only [List.all_cons, cleanPart, Bool.true_and] at h
      simp only [candidateParts]
      exact ih h _ _
    | blob b => rfl
    | functionResponse fr => rfl

/-- On understood parts, the candidate loop produces exactly the
accumulated choices, with the tool-call accumulator threaded across
candidates. -/
theorem convertCandidatesLoop_spec (usage : Option genai.UsageMetadata)
    (cands : List genai.Candidate) (tcs : List llms.ToolCall)
    (h : ∀ c ∈ cands, candClean c = true) :
    convertCandidatesLoop usage cands tcs = .ok (accumulatedChoices usage tcs cands) := by
  induction cands generalizing tcs with
  | nil => rfl
  | cons c rest ih =>
    have hc : candClean c = true := h c (by simp)
    have hrest : ∀ x ∈ rest, candClean x = true :=
      fun x hx => h x (List.mem_cons_of_mem _ hx)
    have ih' : ∀ t, convertCandidatesLoop usage rest t =
        .ok (accumulatedChoices usage t rest) := fun t => ih t hrest
    obtain ⟨cc, fr, sr, cm, tk⟩ := c
    cases cc with
    | none =>
      simp only [convertCandidatesLoop, ih']
      simp [accumulatedChoices, candTextConcat, candToolCalls]
    | some ct =>
      have hclean : ct.Parts.all cleanPart = true := by
        simpa [candClean] using hc
      simp only [convertCandidatesLoop, candidateParts_spec ct.Parts hclean, ih',
        except_ok_bind, except_pure_eq_ok]
      simp [accumulatedChoices, candTextConcat, candToolCalls]

/-- A candidate with a part the merger does not understand makes the
whole candidate loop fail with `ErrUnknownPartInResponse`. -/
theorem convertCandidatesLoop_err (usage : Option genai.UsageMetadata)
    (cands : List genai.Candidate) (tcs : List llms.ToolCall)
    (h : ∃ c ∈ cands, candClean c = false) :
    convertCandidatesLoop usage cands tcs = .error .unknownPartInResponse := by
  induction cands generalizing tcs with
  | nil => simp at h
  | cons c rest ih =>
    by_cases hc : candClean c = true
    · obtain ⟨x, hx, hxc⟩ := h
      rcases List.mem_cons.mp hx with rfl | hx'
      · rw [hc] at hxc; cases hxc
      · have ihe : ∀ t, convertCandidatesLoop usage rest t =
            .error .unknownPartInResponse := fun t => ih t ⟨x, hx', hxc⟩
        obtain ⟨cc, fr, sr, cm, tk⟩ := c
        cases cc with
        | none => simp [convertCandidatesLoop, ihe]
        | some ct =>
          have hclean : ct.Parts.all cleanPart = true := by
            simpa [candClean] using hc
          simp [convertCandidatesLoop, candidateParts_spec ct.Parts hclean, ihe,
            except_ok_bind, except_pure_eq_ok, except_error_bind]
    · have hc' : candClean c = false := by
        cases hcv : candClean c
        · rfl
        · exact absurd hcv hc
      obtain ⟨cc, fr, sr, cm, tk⟩ := c
      cases cc with
      | none => simp [candClean] at hc'
      | some ct =>
        have hclean : ct.Parts.all cleanPart = false := by
          simpa [candClean] using hc'
        simp [convertCandidatesLoop, candidateParts_err ct.Parts hclean,
          except_error_bind, except_error_map]


/-! Claims C3 and C4: the candidate merger. -/

/-- Claim C3 counterexample: with two candidates, the first containing
a function-call part and the second only text, the merger gives the
second choice a tool-call list that still contains the first
candidate's call — the tool-call accumulator is shared across
candidates, so a choice's tool calls are not those of its candidate
alone. -/
theorem convertCandidates_toolCalls_leak :
    convertCandidates
      [⟨some ⟨"model", [.functionCall ⟨"f", []⟩]⟩, 1, [], none, 0⟩,
       ⟨some ⟨"model", [.text "t"]⟩, 1, [], none, 0⟩] none =
      .ok ⟨[⟨"", "FinishReasonStop",
            [("citations", .citations none), ("safety", .safety [])],
            [⟨⟨"f", "\x7b\x7d"⟩⟩]⟩,
           ⟨"t", "FinishReasonStop",
            [("citations", .citations none), ("safety", .safety [])],
            [⟨⟨"f", "\x7b\x7d"⟩⟩]⟩]⟩
    ∧ ([⟨⟨"f", "\x7b\x7d"⟩⟩] : List llms.ToolCall) ≠ [] := by
  exact ⟨rfl, by simp⟩

/-- Claim C3 (amended): the merger produces one choice per candidate in
input order; each choice's content is the in-order concatenation of
that candidate's own text parts, but each choice's tool-call list is
the accumulation of the function-call parts of all candidates up to and
including that one (the accumulator is threaded across candidates). -/
theorem convertCandidates_choices (candidates : List genai.Candidate)
    (usage : Option genai.UsageMetadata)
    (h : ∀ c ∈ candidates, candClean c = true) :
    convertCandidates candidates usage = .ok ⟨accumulatedChoices usage [] candidates⟩ := by
  simp [convertCandidates, convertCandidatesLoop_spec usage candidates [] h,
    except_ok_bind, except_pure_eq_ok]

/-- Witness for C3's amended theorem at the counterexample's input. -/
theorem convertCandidates_choices_witness :
    convertCandidates
      [⟨some ⟨"model", [.functionCall ⟨"f", []⟩]⟩, 1, [], none, 0⟩,
       ⟨some ⟨"model", [.text "t"]⟩, 1, [], none, 0⟩] none =
      .ok ⟨accumulatedChoices none []
        [⟨some ⟨"model", [.functionCall ⟨"f", []⟩]⟩, 1, [], none, 0⟩,
         ⟨some ⟨"model", [.text "t"]⟩, 1, [], none, 0⟩]⟩ :=
  convertCandidates_choices _ none (by decide)

/-- Claim C4 counterexample: a candidate carrying a part the merger
does not understand (here a blob) makes the merger fail with
`ErrUnknownPartInResponse` — the merger does have a failure path on
non-empty input. -/
theorem convertCandidates_unknown_part :
    convertCandidates [⟨some ⟨"model", [.blob ⟨"image/png", []⟩]⟩, 0, [], none, 0⟩] none =
      .error .unknownPartInResponse := rfl

/-- Claim C4 (amended): the merger fails — always with
`ErrUnknownPartInResponse` — exactly when some candidate carries a part
that is neither text nor a function call; on candidate lists whose
parts are all text or function calls it always succeeds. -/
theorem convertCandidates_failure_iff (candidates : List genai.Candidate)
    (usage : Option genai.UsageMetadata) :
    ((∃ r, convertCandidates candidates usage = .ok r) ↔
      ∀ c ∈ candidates, candClean c = true)
    ∧ (convertCandidates candidates usage = .error .unknownPartInResponse ↔
      ¬ ∀ c ∈ candidates, candClean c = true) := by
  by_cases hall : ∀ c ∈ candidates, candClean c = true
  · have hok : convertCandidates candidates usage =
        .ok ⟨accumulatedChoices usage [] candidates⟩ := by
      simp [convertCandidates, convertCandidatesLoop_spec usage candidates [] hall,
        except_ok_bind, except_pure_eq_ok]
    refine ⟨⟨fun _ => hall, fun _ => ⟨_, hok⟩⟩, ⟨fun heq => ?_, fun hn => absurd hall hn⟩⟩
    rw [hok] at heq
    cases heq
  · have hex : ∃ c ∈ candidates, candClean c = false := by
      push_neg at hall
      obtain ⟨c, hc, hcne⟩ := hall
      exact ⟨c, hc, by simpa using hcne⟩
    have herr : convertCandidates candidates usage = .error .unknownPartInResponse := by
      simp [convertCandidates, convertCandidatesLoop_err usage candidates [] hex,
        except_error_bind, except_error_map]
    constructor
    · constructor
      · intro hr
        obtain ⟨r, hr⟩ := hr
        rw [herr] at hr
        cases hr
      · intro h
        exact absurd h hall
    · exact ⟨fun _ => hall, fun _ => herr⟩


/-! Claims C5 and C6: the streaming aggregator. -/

/-- A list of text parts is entirely understood by the merger. -/
theorem texts_clean (l : List String) :
    (l.map genai.Part.text).all cleanPart = true := by
  induction l with
  | nil => rfl
  | cons s r ih => simp [cleanPart, ih]

/-- Concatenating the text of a pure-text part list is concatenating
the strings. -/
theorem textConcat_map_text (l : List String) :
    textConcat (l.map genai.Part.text) = concatAll l := by
  induction l with
  | nil => rfl
  | cons s r ih => simp [textConcat, concatAll, ih]

/-- A pure-text part list yields no tool calls. -/
theorem fcToolCalls_map_text (l : List String) :
    fcToolCalls (l.map genai.Part.text) = [] := by
  induction l with
  | nil => rfl
  | cons s r ih => simpa [fcToolCalls] using ih

/-- Draining a stream of single-text events whose callback accepts
every text until `t`, on which it aborts: the drain stops at `t` with
all texts accumulated, ignoring the remaining events. -/
theorem drainStream_textEvents (cb : String → Bool) (ts : List String) (t : String)
    (rest : List (Except GAError genai.GenerateContentResponse))
    (role : String) (ps : List genai.Part) (fr : Nat)
    (sr : List genai.SafetyRating) (cm : Option genai.CitationMetadata) (tk : Int)
    (hts : ∀ s ∈ ts, cb s = false) (ht : cb t = true) :
    drainStream cb ⟨some ⟨role, ps⟩, fr, sr, cm, tk⟩ ((ts ++ [t]).map textEvent ++ rest) =
      .ok ⟨some ⟨"model", ps ++ (ts ++ [t]).map genai.Part.text⟩, 0, [], none, tk⟩ := by
  induction ts generalizing role ps fr sr cm tk with
  | nil =>
    simp [drainStream, textEvent, streamTextParts, ht, except_pure_eq_ok]
  | cons s ts ih =>
    have hs : cb s = false := hts s (by simp)
    have hts' : ∀ x ∈ ts, cb x = false := fun x hx => hts x (by simp [hx])
    simp only [List.cons_append, List.map_cons]
    simp only [drainStream, textEvent, streamTextParts, hs, if_false, Bool.false_eq_true,
      Option.map_some', Option.getD_some]
    rw [ih "model" (ps ++ [genai.Part.text s]) 0 [] none (tk + 0) hts']
    simp

/-- Claim C5 counterexample: a stream event carrying zero candidates is
not accepted — it is the same fatal stream-shape error as a
multi-candidate event, not a graceful end. -/
theorem stream_zero_candidates_fatal :
    convertAndStreamFromIterator [Except.ok ⟨[], none⟩] (fun _ => false) none =
      .error (.errorf "expect single candidate in stream mode; got 0") := rfl

/-- Claim C5 (amended): only a stream event carrying exactly one
candidate is accepted: an event with zero or with several candidates is
a fatal stream-shape error carrying the observed count, while a
single-candidate event with no content ends the drain gracefully, as if
the stream had ended (the remaining events are ignored and no error is
produced). -/
theorem stream_event_shape (resp : genai.GenerateContentResponse)
    (cand : genai.Candidate) (u usage usage' : Option genai.UsageMetadata)
    (rest rest' : List (Except GAError genai.GenerateContentResponse))
    (cb cb' : String → Bool)
    (h1 : resp.Candidates.length ≠ 1) (h2 : cand.Content = none) :
    convertAndStreamFromIterator (.ok resp :: rest) cb usage =
      .error (.errorf ("expect single candidate in stream mode; got " ++
        toString resp.Candidates.length))
    ∧ convertAndStreamFromIterator (.ok ⟨[cand], u⟩ :: rest') cb' usage' =
      convertAndStreamFromIterator [] cb' usage' := by
  constructor
  · obtain ⟨cands, um⟩ := resp
    cases cands with
    | nil => rfl
    | cons c cs =>
      cases cs with
      | nil => exact absurd rfl h1
      | cons c2 cs2 => rfl
  · obtain ⟨cc, fr, sr, cm, tk⟩ := cand
    cases cc with
    | none => rfl
    | some ct => exact Option.noConfusion h2

/-- Witness for C5's amended theorem: a zero-candidate event is fatal,
and a contentless single-candidate event ends the drain. -/
theorem stream_event_shape_witness :
    convertAndStreamFromIterator [Except.ok ⟨[], none⟩, textEvent "x"] (fun _ => false) none =
      .error (.errorf ("expect single candidate in stream mode; got " ++ toString (0 : Nat)))
    ∧ convertAndStreamFromIterator
        [Except.ok ⟨[⟨none, 0, [], none, 0⟩], none⟩, textEvent "x"] (fun _ => false) none =
      convertAndStreamFromIterator [] (fun _ => false) none :=
  stream_event_shape ⟨[], none⟩ ⟨none, 0, [], none, 0⟩ none none none
    [textEvent "x"] [textEvent "x"] (fun _ => false) (fun _ => false) (by decide) rfl

/-- Claim C6: when the per-token callback aborts on text `t`, draining
stops immediately (whatever events remain, well-formed or not), no
error is returned, and the result's single choice carries the
concatenation of all texts accumulated up to and including `t`. -/
theorem stream_abort_returns_partial (ts : List String) (t : String)
    (rest : List (Except GAError genai.GenerateContentResponse))
    (cb : String → Bool) (usage : Option genai.UsageMetadata)
    (hts : ∀ s ∈ ts, cb s = false) (ht : cb t = true) :
    ∃ r, convertAndStreamFromIterator ((ts ++ [t]).map textEvent ++ rest) cb usage = .ok r
      ∧ r.Choices.map llms.ContentChoice.Content = [concatAll (ts ++ [t])] := by
  have hd := drainStream_textEvents cb ts t rest "" [] 0 [] none 0 hts ht
  have hcand : drainStream cb initialCandidate ((ts ++ [t]).map textEvent ++ rest) =
      .ok ⟨some ⟨"model", (ts ++ [t]).map genai.Part.text⟩, 0, [], none, 0⟩ := by
    simpa [initialCandidate] using hd
  have hclean : ∀ c ∈ [(⟨some ⟨"model", (ts ++ [t]).map genai.Part.text⟩, 0, [], none, 0⟩ :
      genai.Candidate)], candClean c = true := by
    intro c hc
    rw [List.mem_singleton.mp hc]
    simpa [candClean] using texts_clean (ts ++ [t])
  refine ⟨⟨accumulatedChoices usage []
    [⟨some ⟨"model", (ts ++ [t]).map genai.Part.text⟩, 0, [], none, 0⟩]⟩, ?_, ?_⟩
  · show drainStream cb initialCandidate ((ts ++ [t]).map textEvent ++ rest) >>=
        (fun candidate => convertCandidates [candidate] usage) = _
    rw [hcand, except_ok_bind]
    have hconv : convertCandidates
        [⟨some ⟨"model", (ts ++ [t]).map genai.Part.text⟩, 0, [], none, 0⟩] usage =
        convertCandidatesLoop usage
          [⟨some ⟨"model", (ts ++ [t]).map genai.Part.text⟩, 0, [], none, 0⟩] [] >>=
          (fun choices => pure (⟨choices⟩ : llms.ContentResponse)) := rfl
    rw [hconv, convertCandidatesLoop_spec usage _ [] hclean, except_ok_bind]
    rfl
  · simp only [accumulatedChoices, candTextConcat, List.map_cons, List.map_nil]
    rw [textConcat_map_text]

/-- Witness for C6 at the spec's example: events "A", "B", "C" with the
callback aborting on "B" produce the partial result "AB" and no error. -/
theorem stream_abort_returns_partial_witness :
    ∃ r, convertAndStreamFromIterator ((["A"] ++ ["B"]).map textEvent ++ [textEvent "C"])
        (fun s => s == "B") none = .ok r
      ∧ r.Choices.map llms.ContentChoice.Content = ["AB"] := by
  obtain ⟨r, h1, h2⟩ := stream_abort_returns_partial ["A"] "B" [textEvent "C"]
    (fun s => s == "B") none (by decide) (by decide)
  refine ⟨r, h1, ?_⟩
  rw [h2]
  decide


/-! Claims C1, C10 and C7: the request builder. -/

/-- The message loop splits the converted messages into the last System
conversion (the standing system instruction) and the non-System
conversions in order (appended to the incoming history accumulator). -/
theorem buildLoop_spec (env : Env) (msgs : List llms.MessageContent)
    (convs : List genai.Content) (sys0 : Option genai.Content)
    (hist0 : List genai.Content)
    (hconv : msgs.mapM (convertContent env) = Except.ok convs) :
    buildLoop env msgs sys0 hist0 = .ok
      ((match systemInstructionOf (msgs.zip convs) with
        | some s => some s
        | none => sys0),
       hist0 ++ historyOf (msgs.zip convs)) := by
  induction msgs generalizing convs sys0 hist0 with
  | nil =>
    rw [List.mapM_nil] at hconv
    simp only [except_pure_eq_ok, Except.ok.injEq] at hconv
    subst hconv
    simp [buildLoop, systemInstructionOf, historyOf, except_pure_eq_ok]
  | cons m rest ih =>
    rw [List.mapM_cons] at hconv
    cases hm : convertContent env m with
    | error e => rw [hm] at hconv; simp [except_error_bind] at hconv
    | ok c =>
      rw [hm] at hconv
      cases hr : rest.mapM (convertContent env) with
      | error e => rw [hr] at hconv; simp [except_ok_bind, except_error_bind] at hconv
      | ok cs =>
        rw [hr] at hconv
        simp only [except_ok_bind, except_pure_eq_ok, Except.ok.injEq] at hconv
        subst hconv
        simp only [buildLoop, hm, except_ok_bind]
        by_cases hrole : m.Role = .system
        · rw [if_pos hrole, ih cs (some c) hist0 hr]
          have hz : ((m :: rest).zip (c :: cs)) = (m, c) :: rest.zip cs := rfl
          rw [hz]
          simp only [systemInstructionOf, historyOf, hrole, if_pos]
          cases hso : systemInstructionOf (rest.zip cs) <;> simp [hso, hrole]
        · rw [if_neg hrole, ih cs sys0 (hist0 ++ [c]) hr]
          have hz : ((m :: rest).zip (c :: cs)) = (m, c) :: rest.zip cs := rfl
          rw [hz]
          simp only [systemInstructionOf, historyOf, hrole]
          cases hso : systemInstructionOf (rest.zip cs) <;> simp [hso, hrole]

/-- If every message has the System role, no message reaches the
history. -/
theorem historyOf_all_system (msgs : List llms.MessageContent)
    (convs : List genai.Content)
    (h : ∀ m ∈ msgs, m.Role = .system) :
    historyOf (msgs.zip convs) = [] := by
  induction msgs generalizing convs with
  | nil => rfl
  | cons m rest ih =>
    cases convs with
    | nil => rfl
    | cons c cs =>
      have hm : m.Role = .system := h m (by simp)
      have hrest : ∀ x ∈ rest, x.Role = .system :=
        fun x hx => h x (List.mem_cons_of_mem _ hx)
      have hz : ((m :: rest).zip (c :: cs)) = (m, c) :: rest.zip cs := rfl
      rw [hz]
      simp [historyOf, hm, ih cs hrest]

/-- Claim C1 counterexample: on the input `[human "a", system "b"]` the
computed request is the converted first (Human) message, not the
converted last message — a trailing System message goes to the
system-instruction slot and the request is taken from the remaining
history instead, so the last message is not the request regardless of
its role. -/
theorem chatRequest_last_system_not_request :
    chatRequest defaultEnv
      [⟨.human, [.textContent "a"]⟩, ⟨.system, [.textContent "b"]⟩] =
      .ok (some ⟨"system", [.text "b"]⟩, [], ⟨"user", [.text "a"]⟩)
    ∧ (⟨"user", [.text "a"]⟩ : genai.Content).Parts ≠ [genai.Part.text "b"] := by
  refine ⟨rfl, fun h => ?_⟩
  simp at h

/-- Claim C1 (amended): in a multi-message call, System-role messages
are excluded and the conversion of the last of them (if any) becomes
the standing system instruction; among the remaining messages, the
conversion of the **last non-System** message is the actual request and
the earlier non-System conversions form the history in order.  (At
least one non-System message is required; otherwise the code panics,
see C10.) -/
theorem chatRequest_selects_last_non_system (env : Env)
    (messages : List llms.MessageContent) (convs : List genai.Content)
    (hconv : messages.mapM (convertContent env) = Except.ok convs)
    (hne : historyOf (messages.zip convs) ≠ []) :
    ∃ req, (historyOf (messages.zip convs)).getLast? = some req ∧
      chatRequest env messages = .ok
        (systemInstructionOf (messages.zip convs),
         (historyOf (messages.zip convs)).dropLast, req) := by
  have hb := buildLoop_spec env messages convs none [] hconv
  have hb' : buildLoop env messages none [] = .ok
      (systemInstructionOf (messages.zip convs), historyOf (messages.zip convs)) := by
    rw [hb]
    cases hso : systemInstructionOf (messages.zip convs) <;> simp [hso]
  obtain ⟨req, hreq⟩ : ∃ req, (historyOf (messages.zip convs)).getLast? = some req := by
    cases hl : (historyOf (messages.zip convs)).getLast? with
    | none => exact absurd (List.getLast?_eq_none_iff.mp hl) hne
    | some r => exact ⟨r, rfl⟩
  exact ⟨req, hreq, by simp [chatRequest, hb', hreq]⟩

/-- Witness for C1's amended theorem: `[system "s", human "a", ai "b"]`
yields system instruction "s", history `[user "a"]` and request
`model "b"`. -/
theorem chatRequest_selects_last_non_system_witness :
    [(⟨.system, [.textContent "s"]⟩ : llms.MessageContent),
     ⟨.human, [.textContent "a"]⟩, ⟨.ai, [.textContent "b"]⟩].mapM
        (convertContent defaultEnv) =
      Except.ok [⟨"system", [.text "s"]⟩, ⟨"user", [.text "a"]⟩, ⟨"model", [.text "b"]⟩]
    ∧ ∃ req, (historyOf ([(⟨.system, [.textContent "s"]⟩ : llms.MessageContent),
        ⟨.human, [.textContent "a"]⟩, ⟨.ai, [.textContent "b"]⟩].zip
          [⟨"system", [.text "s"]⟩, ⟨"user", [.text "a"]⟩,
           ⟨"model", [.text "b"]⟩])).getLast? = some req ∧
      chatRequest defaultEnv
        [⟨.system, [.textContent "s"]⟩, ⟨.human, [.textContent "a"]⟩,
         ⟨.ai, [.textContent "b"]⟩] = .ok
        (systemInstructionOf ([(⟨.system, [.textContent "s"]⟩ : llms.MessageContent),
          ⟨.human, [.textContent "a"]⟩, ⟨.ai, [.textContent "b"]⟩].zip
            [⟨"system", [.text "s"]⟩, ⟨"user", [.text "a"]⟩, ⟨"model", [.text "b"]⟩]),
         (historyOf ([(⟨.system, [.textContent "s"]⟩ : llms.MessageContent),
          ⟨.human, [.textContent "a"]⟩, ⟨.ai, [.textContent "b"]⟩].zip
            [⟨"system", [.text "s"]⟩, ⟨"user", [.text "a"]⟩,
             ⟨"model", [.text "b"]⟩])).dropLast, req) :=
  ⟨rfl, chatRequest_selects_last_non_system defaultEnv _ _ rfl (by simp [historyOf])⟩

/-- Claim C10: a multi-message call whose messages all carry the System
role leaves the history empty, and `generateFromMessages` then indexes
`history[-1]` — a runtime panic, not an error return. -/
theorem generateFromMessages_all_system_panics (env : Env) (o : Oracle)
    (messages : List llms.MessageContent) (sf : Option (String → Bool))
    (convs : List genai.Content)
    (_h1 : 1 < messages.length)
    (h2 : ∀ m ∈ messages, m.Role = .system)
    (hconv : messages.mapM (convertContent env) = Except.ok convs) :
    generateFromMessages env o messages sf =
      .panicked "runtime error: index out of range [-1]" := by
  have hb := buildLoop_spec env messages convs none [] hconv
  rw [historyOf_all_system messages convs h2] at hb
  simp [generateFromMessages, chatRequest, hb]

/-- Witness for C10 on the two-System-message input. -/
theorem generateFromMessages_all_system_panics_witness :
    1 < ([(⟨.system, [.textContent "a"]⟩ : llms.MessageContent),
      ⟨.system, [.textContent "b"]⟩] : List llms.MessageContent).length
    ∧ generateFromMessages defaultEnv emptyOracle
      [⟨.system, [.textContent "a"]⟩, ⟨.system, [.textContent "b"]⟩] none =
      .panicked "runtime error: index out of range [-1]" :=
  ⟨by decide,
   generateFromMessages_all_system_panics defaultEnv emptyOracle _ none
     [⟨"system", [.text "a"]⟩, ⟨"system", [.text "b"]⟩]
     (by decide) (by decide) rfl⟩

/-- Claim C7: when the transport completes with zero candidates, both
the single-message path and the multi-message path fail with the
dedicated `ErrNoContentInResponse`, an error value distinct from the
translation errors and from wrapped transport errors, and never return
an empty success. -/
theorem zero_candidates_reports_no_content (env : Env) (o : Oracle)
    (parts : List llms.ContentPart) (messages : List llms.MessageContent)
    (hparts : ∃ cps, convertParts env parts = Except.ok cps)
    (hreq : ∃ t, chatRequest env messages = .ok t)
    (hgen : ∀ ps, ∃ u, o.generateContent ps = .ok ⟨[], u⟩)
    (hsend : ∀ si h ps, ∃ u, o.sendMessage si h ps = .ok ⟨[], u⟩) :
    generateFromSingleMessage env o parts none = .error .noContentInResponse
    ∧ generateFromMessages env o messages none = .err .noContentInResponse
    ∧ GAError.noContentInResponse ≠ .unknownPartInResponse
    ∧ ∀ m, GAError.noContentInResponse ≠ .errorf m := by
  obtain ⟨cps, hcps⟩ := hparts
  obtain ⟨⟨si, hist, req⟩, htr⟩ := hreq
  obtain ⟨u1, hu1⟩ := hgen cps
  obtain ⟨u2, hu2⟩ := hsend si hist req.Parts
  refine ⟨?_, ?_, by simp, fun m => by simp⟩
  · simp [generateFromSingleMessage, hcps, hu1, except_ok_bind, except_throw_eq_error]
  · simp [generateFromMessages, htr, hu2]

/-- Witness for C7 with the all-empty transport oracle. -/
theorem zero_candidates_reports_no_content_witness :
    generateFromSingleMessage defaultEnv emptyOracle [.textContent "x"] none =
      .error .noContentInResponse
    ∧ generateFromMessages defaultEnv emptyOracle
        [⟨.human, [.textContent "a"]⟩, ⟨.ai, [.textContent "b"]⟩] none =
      .err .noContentInResponse :=
  have h := zero_candidates_reports_no_content defaultEnv emptyOracle
    [.textContent "x"] [⟨.human, [.textContent "a"]⟩, ⟨.ai, [.textContent "b"]⟩]
    ⟨[.text "x"], rfl⟩
    ⟨(none, [⟨"user", [.text "a"]⟩], ⟨"model", [.text "b"]⟩), rfl⟩
    (fun _ => ⟨none, rfl⟩) (fun _ _ _ => ⟨none, rfl⟩)
  ⟨h.1, h.2.1⟩


/-! Claims C2, C8 and C9: the schema translator. -/

/-- Claim C2 counterexample: the logical schema "array of string" is
representable in both input shapes, but the structured path translates
it (recursing into `items`) while the generic-map path rejects it
outright (it requires a `properties` key and never reads `items`) — the
two paths are not equivalent at every depth. -/
theorem schema_paths_disagree_on_items :
    convertJSONSchemaDefinition
      (.mk "array" "" none (some (.mk "string" "" none none [])) []) =
      .ok (.mk .array "" none (some (.mk .string "" none none [])) [])
    ∧ convertMapToSchema
        [("type", .str "array"), ("items", .gomap [("type", .str "string")])] =
      .error (.errorf "expected to find a map of properties") :=
  ⟨rfl, rfl⟩

/-- The structured-path property loop on a flat property list. -/
theorem convertJSONSchemaProps_flat (ps : List (String × String × String)) :
    convertJSONSchemaProps (flatProperties ps) =
      .ok (ps.map fun p =>
        (p.1, genai.Schema.mk (convertToolSchemaType p.2.1) p.2.2 none none [])) := by
  induction ps with
  | nil => rfl
  | cons p rest ih =>
    obtain ⟨k, pty, pdesc⟩ := p
    have hhead : convertJSONSchemaProps (flatProperties ((k, pty, pdesc) :: rest)) =
        convertJSONSchemaProps (flatProperties rest) >>= fun restC =>
          pure ((k, genai.Schema.mk (convertToolSchemaType pty) pdesc none none []) ::
            restC) := rfl
    rw [hhead, ih, except_ok_bind]
    rfl

/-- The generic-map-path property loop on the same flat property
list. -/
theorem convertMapProps_flat (ps : List (String × String × String)) :
    convertMapProps (flatPropertiesMap ps) =
      .ok (ps.map fun p =>
        (p.1, genai.Schema.mk (convertToolSchemaType p.2.1) p.2.2 none none [])) := by
  induction ps with
  | nil => rfl
  | cons p rest ih =>
    obtain ⟨k, pty, pdesc⟩ := p
    have hhead : convertMapProps (flatPropertiesMap ((k, pty, pdesc) :: rest)) =
        convertMapProps (flatPropertiesMap rest) >>= fun restC =>
          pure ((k, genai.Schema.mk (convertToolSchemaType pty) pdesc none none []) ::
            restC) := rfl
    rw [hhead, ih, except_ok_bind]
    rfl

/-- Claim C2 (amended): the two translation paths agree exactly on
one-nesting-level object schemas — a top-level type, description,
required list, and a property map whose every property carries only a
scalar type and a description.  (Beyond that the generic-map path
requires `properties`, ignores `items`, and does not recurse, so deeper
logical schemas disagree, as the counterexample shows.) -/
theorem schema_paths_agree_on_flat (ty desc : String)
    (ps : List (String × String × String)) (req : List String) :
    convertJSONSchemaDefinition (.mk ty desc (some (flatProperties ps)) none req) =
      convertMapToSchema
        [("type", .str ty), ("description", .str desc),
         ("properties", .gomap (flatPropertiesMap ps)), ("required", .strList req)] := by
  have hfun : convertJSONSchemaType = convertToolSchemaType := rfl
  have hLHS : convertJSONSchemaDefinition (.mk ty desc (some (flatProperties ps)) none req) =
      convertJSONSchemaProps (flatProperties ps) >>= fun props =>
        pure (genai.Schema.mk (convertJSONSchemaType ty) desc (some props) none req) := rfl
  have hRHS : convertMapToSchema
      [("type", .str ty), ("description", .str desc),
       ("properties", .gomap (flatPropertiesMap ps)), ("required", .strList req)] =
      convertMapProps (flatPropertiesMap ps) >>= fun props =>
        pure (genai.Schema.mk (convertToolSchemaType ty) desc (some props) none req) := rfl
  rw [hLHS, hRHS, convertJSONSchemaProps_flat, convertMapProps_flat,
    except_ok_bind, except_ok_bind, hfun]

/-- Claim C8: every type string other than the six recognized ones maps
to the unspecified vendor type in both translation paths, and schema
translation succeeds rather than failing on such a string. -/
theorem unknown_type_is_unspecified (s : String)
    (h : s ∉ (["object", "string", "number", "integer", "boolean", "array"] :
      List String)) :
    convertJSONSchemaType s = .unspecified
    ∧ convertToolSchemaType s = .unspecified
    ∧ convertMapToSchema [("type", .str s), ("properties", .gomap [])] =
        .ok (.mk .unspecified "" (some []) none [])
    ∧ convertJSONSchemaDefinition (.mk s "" none none []) =
        .ok (.mk .unspecified "" none none []) := by
  simp only [List.mem_cons, List.not_mem_nil, or_false, not_or] at h
  obtain ⟨h1, h2, h3, h4, h5, h6⟩ := h
  have hj : convertJSONSchemaType s = .unspecified := by
    simp [convertJSONSchemaType, h1, h2, h3, h4, h5, h6]
  have ht : convertToolSchemaType s = .unspecified := by
    simp [convertToolSchemaType, h1, h2, h3, h4, h5, h6]
  refine ⟨hj, ht, ?_, ?_⟩
  · have hred : convertMapToSchema [("type", .str s), ("properties", .gomap [])] =
        .ok (.mk (convertToolSchemaType s) "" (some []) none []) := rfl
    rw [hred, ht]
  · have hred : convertJSONSchemaDefinition (.mk s "" none none []) =
        .ok (.mk (convertJSONSchemaType s) "" none none []) := rfl
    rw [hred, hj]

/-- Witness for C8 at the unrecognized type string "frobnicate". -/
theorem unknown_type_is_unspecified_witness :
    "frobnicate" ∉ (["object", "string", "number", "integer", "boolean", "array"] :
      List String)
    ∧ convertJSONSchemaType "frobnicate" = .unspecified
    ∧ convertToolSchemaType "frobnicate" = .unspecified :=
  have h := unknown_type_is_unspecified "frobnicate" (by decide)
  ⟨by decide, h.1, h.2.1⟩

/-- Claim C9: `required` is accepted both as a string sequence and as
an untyped sequence of strings, yielding the same required list; an
untyped sequence with a non-string element anywhere, or a `required`
value of any other shape, is the "expected string for required"
translation error. -/
theorem required_forms (rs pre post : List String) (v : GoVal)
    (hstr : ∀ t, v ≠ GoVal.str t)
    (hsl : ∀ xs, v ≠ GoVal.strList xs)
    (hal : ∀ xs, v ≠ GoVal.anyList xs) :
    convertMapToSchema [("properties", .gomap []), ("required", .strList rs)] =
      .ok (.mk .unspecified "" (some []) none rs)
    ∧ convertMapToSchema
        [("properties", .gomap []), ("required", .anyList (rs.map GoVal.str))] =
      .ok (.mk .unspecified "" (some []) none rs)
    ∧ convertMapToSchema
        [("properties", .gomap []),
         ("required", .anyList (pre.map GoVal.str ++ v :: post.map GoVal.str))] =
      .error (.errorf "expected string for required")
    ∧ convertMapToSchema [("properties", .gomap []), ("required", v)] =
      .error (.errorf "expected string for required") := by
  refine ⟨rfl, ?_, ?_, ?_⟩
  · have hr : convertRequiredList (rs.map GoVal.str) = .ok rs := by
      induction rs with
      | nil => rfl
      | cons a l ih => simp [convertRequiredList, ih, except_ok_bind, except_pure_eq_ok]
    have hred : convertMapToSchema
        [("properties", .gomap []), ("required", .anyList (rs.map GoVal.str))] =
        convertRequiredList (rs.map GoVal.str) >>= fun req =>
          pure (genai.Schema.mk .unspecified "" (some []) none req) := rfl
    rw [hred, hr, except_ok_bind]
    rfl
  · have hr : convertRequiredList (pre.map GoVal.str ++ v :: post.map GoVal.str) =
        .error (.errorf "expected string for required") := by
      induction pre with
      | nil =>
        cases v with
        | str t => exact absurd rfl (hstr t)
        | num n => rfl
        | boolVal b => rfl
        | strList xs => rfl
        | anyList xs => rfl
        | gomap m => rfl
      | cons a l ih =>
        simp [convertRequiredList, ih, except_error_bind]
    have hred : convertMapToSchema
        [("properties", .gomap []),
         ("required", .anyList (pre.map GoVal.str ++ v :: post.map GoVal.str))] =
        convertRequiredList (pre.map GoVal.str ++ v :: post.map GoVal.str) >>= fun req =>
          pure (genai.Schema.mk .unspecified "" (some []) none req) := rfl
    rw [hred, hr, except_error_bind]
  · cases v with
    | str t => exact absurd rfl (hstr t)
    | strList xs => exact absurd rfl (hsl xs)
    | anyList xs => exact absurd rfl (hal xs)
    | num n => rfl
    | boolVal b => rfl
    | gomap m => rfl

/-- Witness for C9 with `required = ["a", "b"]` in both accepted forms
and a map value as the offending non-string element. -/
theorem required_forms_witness :
    convertMapToSchema [("properties", .gomap []), ("required", .strList ["a", "b"])] =
      .ok (.mk .unspecified "" (some []) none ["a", "b"])
    ∧ convertMapToSchema
        [("properties", .gomap []),
         ("required", .anyList [GoVal.str "a", GoVal.str "b"])] =
      .ok (.mk .unspecified "" (some []) none ["a", "b"])
    ∧ convertMapToSchema
        [("properties", .gomap []),
         ("required", .anyList [GoVal.str "x", GoVal.gomap [], GoVal.str "y"])] =
      .error (.errorf "expected string for required")
    ∧ convertMapToSchema [("properties", .gomap []), ("required", GoVal.gomap [])] =
      .error (.errorf "expected string for required") :=
  required_forms ["a", "b"] ["x"] ["y"] (GoVal.gomap [])
    (fun _ h => GoVal.noConfusion h) (fun _ h => GoVal.noConfusion h)
    (fun _ h => GoVal.noConfusion h)

end googleai
